import Mathlib

/-!
# Verification of the memory usage reporter (`assignment2.py`)

Shallow embedding of the program's pure computations and report
construction, with theorems settling the specification's claims.

Modelling conventions:
* Python `float` arithmetic is modelled by exact rational arithmetic (`ℚ`).
  Every concrete value appearing in the claims is exactly representable, so
  the idealisation is exact on those inputs.
* Python `int` is modelled by `ℤ` (and exponents/digit counts by `ℕ`).
* Reads of `/proc/meminfo`, of `pidof` output and of `/proc/<pid>/smaps`
  are modelled by passing the read data (list of lines, raw output string,
  or a per-pid resident-memory function) as explicit parameters.
* A Python function that can fall off the end (returning `None`) or raise
  an uncaught exception is modelled with `PyResult`: `.ok x` is a normal
  return of `x`, `.exn` an uncaught exception.
* Python's bankers rounding `round` is `pyRound`; `str.split()`,
  `str.strip()`, `str.startswith`, `int(...)` and `f"{x:.{n}f}"` are
  embedded as `pySplit`, `pyStrip`, `pyStartsWith`, `pyInt`, `formatFixed`,
  implemented over character lists so they evaluate by kernel reduction.
-/

/-- Result of running a Python function: a normal return value, or an
uncaught exception (e.g. `IndexError`/`ValueError`). -/
inductive PyResult (α : Type) where
  | ok : α → PyResult α
  | exn : PyResult α
deriving DecidableEq, Repr

/-- Python's built-in `round` on a real number, modelled on `ℚ`:
round half to even (bankers rounding), returning an integer.
`int(round(x))` in the source is exactly this (`round` already yields an
integer there). -/
def pyRound (q : ℚ) : ℤ :=
  if q - ⌊q⌋ < 1/2 then ⌊q⌋
  else if 1/2 < q - ⌊q⌋ then ⌊q⌋ + 1
  else if ⌊q⌋ % 2 = 0 then ⌊q⌋ else ⌊q⌋ + 1

/-- Python string repetition `c * n` for a single character: negative
repeat counts yield the empty string, as in Python. -/
def pyStrMul (c : Char) (n : ℤ) : String :=
  String.mk (List.replicate n.toNat c)

/-- `percent_to_graph` from the source (lines 28-31):
`num_hashes = int(round(percent * length))` followed by
`'#' * num_hashes + ' ' * (length - num_hashes)`.  Note there is no
clamping of `num_hashes`. -/
def percent_to_graph (percent : ℚ) (length : ℤ) : String :=
  pyStrMul '#' (pyRound (percent * (length : ℚ)))
    ++ pyStrMul ' ' (length - pyRound (percent * (length : ℚ)))

/-- Exactly `places` decimal digits of `n`, most significant first,
zero-padded on the left: the fractional digit block of `f"{x:.{places}f}"`. -/
def fracDigits : ℕ → ℕ → List Char
  | _, 0 => []
  | n, p + 1 => fracDigits (n / 10) p ++ [Nat.digitChar (n % 10)]

/-- Python fixed-point formatting `f"{q:.{places}f}"` on an exact value:
scale by `10 ^ places`, round half to even, and print with `places`
digits after the decimal point (no point at all when `places = 0`). -/
def formatFixed (q : ℚ) (places : ℕ) : String :=
  let n := pyRound (q * (10 : ℚ) ^ places)
  let a := n.natAbs
  let sign := if n < 0 then "-" else ""
  if places = 0 then sign ++ toString a
  else sign ++ toString (a / 10 ^ places) ++ "." ++ String.mk (fracDigits (a % 10 ^ places) places)

/-- The suffix table of `bytes_to_human_r` (source line 64). -/
def suffixes : List String := ["KiB", "MiB", "GiB", "TiB", "PiB"]

/-- The `while result >= 1024 and suf_count < len(suffixes) - 1` loop of
`bytes_to_human_r` (source lines 68-70), with `fuel` the number of suffix
steps still available (`len(suffixes) - 1 - suf_count`).  Returns the
final `result` and the number of divisions performed (`suf_count`). -/
def scaleLoop : ℕ → ℚ → ℚ × ℕ
  | 0, result => (result, 0)
  | fuel + 1, result =>
    if 1024 ≤ result then
      let p := scaleLoop fuel (result / 1024)
      (p.1, p.2 + 1)
    else (result, 0)

/-- `bytes_to_human_r` from the source (lines 62-72). -/
def bytes_to_human_r (kibibytes : ℤ) (decimal_places : ℕ) : String :=
  let p := scaleLoop (suffixes.length - 1) (kibibytes : ℚ)
  formatFixed p.1 decimal_places ++ " " ++ suffixes.getD p.2 ""

/-- Python `line.startswith(p)`. -/
def pyStartsWith (s p : String) : Bool :=
  p.data.isPrefixOf s.data

/-- Worker for `pySplit`: walk the characters, accumulating the current
token (reversed) in `cur`; whitespace ends a token, runs of whitespace
produce no empty tokens. -/
def pySplitAux : List Char → List Char → List String
  | [], cur => if cur = [] then [] else [String.mk cur.reverse]
  | c :: cs, cur =>
    if c.isWhitespace then
      if cur = [] then pySplitAux cs []
      else String.mk cur.reverse :: pySplitAux cs []
    else pySplitAux cs (c :: cur)

/-- Python `s.split()` (no separator argument): split on runs of
whitespace, never yielding empty tokens. -/
def pySplit (s : String) : List String :=
  pySplitAux s.data []

/-- Python `s.strip()`: drop leading and trailing whitespace. -/
def pyStrip (s : String) : String :=
  String.mk (((s.data.dropWhile Char.isWhitespace).reverse.dropWhile Char.isWhitespace).reverse)

/-- Worker for `pyInt`: read decimal digits, failing on any non-digit. -/
def pyIntAux : List Char → ℕ → Option ℕ
  | [], acc => some acc
  | c :: cs, acc =>
    if c.isDigit then pyIntAux cs (acc * 10 + (c.toNat - '0'.toNat))
    else none

/-- Python `int(s)` on the token strings this program parses: an optional
minus sign followed by decimal digits; anything else raises (`none`). -/
def pyInt (s : String) : Option ℤ :=
  match s.data with
  | [] => none
  | c :: cs =>
    if c = '-' then
      if cs = [] then none else (pyIntAux cs 0).map (fun n => -(n : ℤ))
    else (pyIntAux (c :: cs) 0).map (fun n => (n : ℤ))

/-- `get_sys_mem` from the source (lines 33-38), over the lines of
`/proc/meminfo`.  The first line starting with `MemTotal:` yields
`int(line.split()[1])`; if no line matches, the Python function falls off
the end and returns `None` (`.ok none`).  An out-of-range index or an
unparsable token would raise (`.exn`). -/
def get_sys_mem (meminfo : List String) : PyResult (Option ℤ) :=
  match meminfo with
  | [] => .ok none
  | line :: rest =>
    if pyStartsWith line "MemTotal:" then
      match (pySplit line).get? 1 with
      | none => .exn
      | some tok =>
        match pyInt tok with
        | none => .exn
        | some v => .ok (some v)
    else get_sys_mem rest

/-- `get_avail_mem` from the source (lines 40-46): like `get_sys_mem` for
`MemAvailable:`, but when no line matches it returns the sentinel `-1`. -/
def get_avail_mem (meminfo : List String) : PyResult ℤ :=
  match meminfo with
  | [] => .ok (-1)
  | line :: rest =>
    if pyStartsWith line "MemAvailable:" then
      match (pySplit line).get? 1 with
      | none => .exn
      | some tok =>
        match pyInt tok with
        | none => .exn
        | some v => .ok v
    else get_avail_mem rest

/-- `pids_of_prog` from the source (lines 48-51), over the raw output of
`pidof <app_name>`: strip it, and split into tokens when nonempty. -/
def pids_of_prog (pidof_output : String) : List String :=
  if pyStrip pidof_output = "" then [] else pySplit (pyStrip pidof_output)

/-- `used_mem = total_mem - avail_mem` (source line 80). -/
def used_mem (total_mem avail_mem : ℤ) : ℤ :=
  total_mem - avail_mem

/-- `usage_percent = used_mem / total_mem` (source line 81), Python true
division modelled exactly on `ℚ`. -/
def usage_percent (total_mem avail_mem : ℤ) : ℚ :=
  (used_mem total_mem avail_mem : ℚ) / (total_mem : ℚ)

/-- Python left justification `f"{s:<15}"` generalised: pad on the right
with spaces up to `w` characters (no truncation). -/
def ljust (s : String) (w : ℕ) : String :=
  s ++ String.mk (List.replicate (w - s.length) ' ')

/-- The part of every report line after the label: the source's f-string
segment `[{bar}| {frac*100:.0f}%] {used_str}/{total_str}` with
`used_str`/`total_str` chosen by the `-H` flag (source lines 84-87,
101-104, 111-113). -/
def bar_segment (frac : ℚ) (used total bar_length : ℤ) (human : Bool) : String :=
  "[" ++ percent_to_graph frac bar_length ++ "| " ++ formatFixed (frac * 100) 0 ++ "%] "
    ++ (if human then bytes_to_human_r used 2 else toString used) ++ "/"
    ++ (if human then bytes_to_human_r total 2 else toString total)

/-- The system-wide report line (source lines 77-87): label literal
`"Memory"` followed by nine spaces, then the bar segment built from
`used_mem`/`usage_percent`. -/
def system_report_line (total_mem avail_mem bar_length : ℤ) (human : Bool) : String :=
  "Memory         "
    ++ bar_segment (usage_percent total_mem avail_mem) (used_mem total_mem avail_mem)
        total_mem bar_length human

/-- One per-process report line (source lines 96-104): the label (a pid,
or the program name for the aggregate line) left-justified to 15, a
space, then the bar segment for `rss / total_mem`. -/
def proc_line (label : String) (rss total_mem bar_length : ℤ) (human : Bool) : String :=
  ljust label 15 ++ " " ++ bar_segment ((rss : ℚ) / (total_mem : ℚ)) rss total_mem bar_length human

/-- The `for pid in pids` loop of the per-program branch (source lines
95-105): returns the printed lines and the accumulated `rss_totals`
list, in loop order.  `rss_of` is the result of `rss_mem_of_pid` for
each pid (a read of `/proc/<pid>/smaps`, passed in as data). -/
def per_program_lines (rss_of : String → ℤ) (total_mem bar_length : ℤ) (human : Bool) :
    List String → List String × List ℤ
  | [] => ([], [])
  | pid :: rest =>
    let rss_mem := rss_of pid
    let p := per_program_lines rss_of total_mem bar_length human rest
    (proc_line pid rss_mem total_mem bar_length human :: p.1, rss_mem :: p.2)

/-- The per-program report (source lines 95-113): the per-pid lines,
plus — only when `len(pids) > 1` — one aggregate line labelled with the
program name, built from `sum(rss_totals)` over the same total.  (The
source reuses the loop-leftover `total_str` in the aggregate line; its
value is identical to formatting `total_mem` afresh.) -/
def per_program_report (program : String) (rss_of : String → ℤ) (total_mem bar_length : ℤ)
    (human : Bool) (pids : List String) : List String :=
  let p := per_program_lines rss_of total_mem bar_length human pids
  if 1 < pids.length then
    p.1 ++ [proc_line program p.2.sum total_mem bar_length human]
  else p.1

/-- The whole per-program branch (source lines 88-113): resolve pids from
the raw `pidof` output; when none are found print
`No processes found for <program>` and exit with status 1, otherwise
print the report and exit with status 0.  Returns (printed lines, exit
status). -/
def per_program_main (program pidof_output : String) (rss_of : String → ℤ)
    (total_mem bar_length : ℤ) (human : Bool) : List String × ℕ :=
  let pids := pids_of_prog pidof_output
  if pids.isEmpty then (["No processes found for " ++ program], 1)
  else (per_program_report program rss_of total_mem bar_length human pids, 0)

/-! ## Helper lemmas about `pyRound` -/

theorem pyRound_intCast (n : ℤ) : pyRound ((n : ℚ)) = n := by
  unfold pyRound
  rw [Int.floor_intCast, if_pos]
  rw [sub_self]
  norm_num

/-- Evaluate `pyRound` at an argument that is (provably) an integer. -/
theorem pyRound_eval {q : ℚ} {n : ℤ} (h : q = (n : ℚ)) : pyRound q = n := by
  rw [h, pyRound_intCast]

theorem floor_le_pyRound (q : ℚ) : ⌊q⌋ ≤ pyRound q := by
  unfold pyRound
  split_ifs <;> omega

theorem pyRound_le_floor_add_one (q : ℚ) : pyRound q ≤ ⌊q⌋ + 1 := by
  unfold pyRound
  split_ifs <;> omega

theorem half_le_of_pyRound_ne_floor {q : ℚ} (h : pyRound q ≠ ⌊q⌋) : 1/2 ≤ q - ⌊q⌋ := by
  unfold pyRound at h
  split_ifs at h with h1 h2
  · exact absurd rfl h
  · linarith
  · exact absurd rfl h
  · linarith [not_lt.mp h1]

theorem pyRound_nonneg {q : ℚ} (h : 0 ≤ q) : 0 ≤ pyRound q :=
  le_trans (Int.floor_nonneg.mpr h) (floor_le_pyRound q)

theorem pyRound_le_of_le_int {q : ℚ} {n : ℤ} (h : q ≤ (n : ℚ)) : pyRound q ≤ n := by
  by_cases he : pyRound q = ⌊q⌋
  · rw [he]
    calc ⌊q⌋ ≤ ⌊(n : ℚ)⌋ := Int.floor_le_floor h
    _ = n := Int.floor_intCast n
  · have h2 := half_le_of_pyRound_ne_floor he
    have h3 : ((⌊q⌋ : ℚ)) < (n : ℚ) := by linarith
    have h4 : ⌊q⌋ < n := by exact_mod_cast h3
    calc pyRound q ≤ ⌊q⌋ + 1 := pyRound_le_floor_add_one q
    _ ≤ n := by omega

theorem pyRound_mono {a b : ℚ} (h : a ≤ b) : pyRound a ≤ pyRound b := by
  rcases lt_or_le ⌊a⌋ ⌊b⌋ with hf | hf
  · calc pyRound a ≤ ⌊a⌋ + 1 := pyRound_le_floor_add_one a
    _ ≤ ⌊b⌋ := by omega
    _ ≤ pyRound b := floor_le_pyRound b
  · have hfe : ⌊b⌋ = ⌊a⌋ := le_antisymm hf (Int.floor_le_floor h)
    unfold pyRound
    rw [hfe]
    split_ifs <;> first | omega | (exfalso; linarith)

/-! ## Helper lemmas about the bar renderer -/

theorem percent_to_graph_data (f : ℚ) (L : ℤ) :
    (percent_to_graph f L).data
      = List.replicate (pyRound (f * (L : ℚ))).toNat '#'
        ++ List.replicate ((L - pyRound (f * (L : ℚ)))).toNat ' ' := rfl

theorem percent_to_graph_length (f : ℚ) (L : ℤ) :
    (percent_to_graph f L).length
      = (pyRound (f * (L : ℚ))).toNat + ((L - pyRound (f * (L : ℚ)))).toNat := by
  have h : (percent_to_graph f L).length = (percent_to_graph f L).data.length := rfl
  rw [h, percent_to_graph_data]
  simp

theorem pyRound_mul_bounds {f : ℚ} {L : ℤ} (h0 : 0 ≤ f) (h1 : f ≤ 1) (hL : 0 ≤ L) :
    0 ≤ pyRound (f * (L : ℚ)) ∧ pyRound (f * (L : ℚ)) ≤ L := by
  have hLq : (0 : ℚ) ≤ (L : ℚ) := by exact_mod_cast hL
  constructor
  · exact pyRound_nonneg (mul_nonneg h0 hLq)
  · refine pyRound_le_of_le_int ?_
    calc f * (L : ℚ) ≤ 1 * (L : ℚ) := mul_le_mul_of_nonneg_right h1 hLq
    _ = (L : ℚ) := one_mul _

theorem percent_to_graph_length_of_unit {f : ℚ} {L : ℤ}
    (h0 : 0 ≤ f) (h1 : f ≤ 1) (hL : 0 ≤ L) :
    (percent_to_graph f L).length = L.toNat := by
  obtain ⟨ha, hb⟩ := pyRound_mul_bounds h0 h1 hL
  rw [percent_to_graph_length]
  omega

theorem percent_to_graph_count (f : ℚ) (L : ℤ) :
    (percent_to_graph f L).data.count '#' = (pyRound (f * (L : ℚ))).toNat := by
  rw [percent_to_graph_data]
  simp [List.count_append, List.count_replicate]

/-! ## Helper lemmas about `scaleLoop` and the per-program loop -/

theorem scaleLoop_done {q : ℚ} (h : q < 1024) (fuel : ℕ) : scaleLoop fuel q = (q, 0) := by
  cases fuel with
  | zero => rfl
  | succ n => simp [scaleLoop, not_le.mpr h]

theorem scaleLoop_step {q : ℚ} (fuel : ℕ) (h : 1024 ≤ q) {r : ℚ} (hr : q / 1024 = r) :
    scaleLoop (fuel + 1) q = ((scaleLoop fuel r).1, (scaleLoop fuel r).2 + 1) := by
  subst hr
  simp [scaleLoop, h]

theorem per_program_lines_spec (rss_of : String → ℤ) (total_mem bar_length : ℤ) (human : Bool)
    (pids : List String) :
    per_program_lines rss_of total_mem bar_length human pids
      = (pids.map (fun pid => proc_line pid (rss_of pid) total_mem bar_length human),
         pids.map rss_of) := by
  induction pids with
  | nil => rfl
  | cons pid rest ih => simp [per_program_lines, ih]

/-! ## Claim C1 -/

/-- C1, counterexample: `percent_to_graph` does NOT clamp the filled-cell
count.  At `fraction = 2`, `length = 1` the filled count is
`int(round(2*1)) = 2 > length`, and the output `"##"` has 2 characters,
not `length = 1`, refuting the claim that the output always has exactly
`length` characters. -/
theorem percent_to_graph_clamp_cex :
    percent_to_graph 2 1 = "##" ∧ (percent_to_graph 2 1).length ≠ 1 := by
  have h : pyRound ((2 : ℚ) * ((1 : ℤ) : ℚ)) = 2 := pyRound_eval (by norm_num)
  unfold percent_to_graph
  rw [h]
  decide

/-- C1, amended: `percent_to_graph` performs no clamping — its output
length is always `max(filled,0) + max(length-filled,0)` cells with
`filled = int(round(fraction*length))`; only for `fraction` in `[0,1]`
and `length ≥ 0` is the filled count guaranteed to lie in `[0, length]`
and the output to have exactly `length` characters. -/
theorem percent_to_graph_unclamped (f : ℚ) (L : ℤ) :
    (percent_to_graph f L).length
      = (pyRound (f * (L : ℚ))).toNat + ((L - pyRound (f * (L : ℚ)))).toNat
    ∧ (0 ≤ f → f ≤ 1 → 0 ≤ L →
        0 ≤ pyRound (f * (L : ℚ)) ∧ pyRound (f * (L : ℚ)) ≤ L
          ∧ (percent_to_graph f L).length = L.toNat) := by
  refine ⟨percent_to_graph_length f L, fun h0 h1 hL => ?_⟩
  obtain ⟨ha, hb⟩ := pyRound_mul_bounds h0 h1 hL
  exact ⟨ha, hb, percent_to_graph_length_of_unit h0 h1 hL⟩

/-- Witness for C1's amended theorem at `fraction = 1`, `length = 3`. -/
theorem percent_to_graph_unclamped_w :
    0 ≤ pyRound ((1 : ℚ) * ((3 : ℤ) : ℚ)) ∧ pyRound ((1 : ℚ) * ((3 : ℤ) : ℚ)) ≤ 3
      ∧ (percent_to_graph 1 3).length = (3 : ℤ).toNat :=
  (percent_to_graph_unclamped 1 3).2 (by decide) (by decide) (by decide)

/-! ## Claim C6 -/

/-- C6: for `fraction` in `[0,1]` and `length ≥ 0` the rendered bar has
exactly `length` characters, contains only `'#'` and `' '`, and its
fill-character count is monotone non-decreasing in the fraction. -/
theorem percent_to_graph_props (f g : ℚ) (L : ℤ)
    (hf0 : 0 ≤ f) (hf1 : f ≤ 1) (hg0 : 0 ≤ g) (hg1 : g ≤ 1) (hL : 0 ≤ L) :
    (percent_to_graph f L).length = L.toNat
    ∧ (∀ c ∈ (percent_to_graph f L).data, c = '#' ∨ c = ' ')
    ∧ (f ≤ g →
        (percent_to_graph f L).data.count '#' ≤ (percent_to_graph g L).data.count '#') := by
  refine ⟨percent_to_graph_length_of_unit hf0 hf1 hL, ?_, ?_⟩
  · intro c hc
    rw [percent_to_graph_data] at hc
    rcases List.mem_append.mp hc with h | h
    · exact Or.inl (List.eq_of_mem_replicate h)
    · exact Or.inr (List.eq_of_mem_replicate h)
  · intro hfg
    rw [percent_to_graph_count, percent_to_graph_count]
    have hLq : (0 : ℚ) ≤ (L : ℚ) := by exact_mod_cast hL
    exact Int.toNat_le_toNat (pyRound_mono (mul_le_mul_of_nonneg_right hfg hLq))

/-- Witness for C6 at `f = 0`, `g = 1`, `length = 3`. -/
theorem percent_to_graph_props_w :
    (percent_to_graph 0 3).length = (3 : ℤ).toNat
    ∧ (∀ c ∈ (percent_to_graph 0 3).data, c = '#' ∨ c = ' ')
    ∧ ((0 : ℚ) ≤ 1 →
        (percent_to_graph 0 3).data.count '#' ≤ (percent_to_graph 1 3).data.count '#') :=
  percent_to_graph_props 0 1 3 (by decide) (by decide) (by decide) (by decide) (by decide)

/-! ## Helper lemmas for concrete formatting evaluations -/

theorem str_append_assoc (a b c : String) : a ++ b ++ c = a ++ (b ++ c) := by
  apply String.ext
  simp [String.data_append]

/-- Evaluate `formatFixed` once the scaled argument is known to be the
integer `n`. -/
theorem formatFixed_eval {q : ℚ} {places : ℕ} {n : ℤ} (h : q * (10 : ℚ) ^ places = (n : ℚ)) :
    formatFixed q places
      = (if n < 0 then "-" else "")
        ++ (if places = 0 then toString n.natAbs
            else toString (n.natAbs / 10 ^ places) ++ "."
              ++ String.mk (fracDigits (n.natAbs % 10 ^ places) places)) := by
  simp only [formatFixed]
  rw [pyRound_eval h]
  split_ifs <;> rfl

/-- When the starting amount is below 1024, the scaling loop of
`bytes_to_human_r` never runs and the suffix stays `KiB`. -/
theorem b2h_no_scale {k : ℤ} (h : (k : ℚ) < 1024) (dp : ℕ) :
    bytes_to_human_r k dp = formatFixed (k : ℚ) dp ++ " KiB" := by
  simp only [bytes_to_human_r]
  rw [scaleLoop_done h]
  rw [str_append_assoc]
  rfl

/-! ## Claim C2 -/

/-- C2: in system-wide mode `used = total - available` and
`fraction = used / total`; for total = 16,000,000 KiB and available =
4,000,000 KiB this gives used = 12,000,000, fraction 0.75, a length-20
bar with exactly 15 fill characters, printed percentage `75%`, and the
full report line as printed by the source. -/
theorem system_scenario :
    used_mem 16000000 4000000 = 12000000
    ∧ usage_percent 16000000 4000000 = 3/4
    ∧ (percent_to_graph (usage_percent 16000000 4000000) 20).data.count '#' = 15
    ∧ formatFixed (usage_percent 16000000 4000000 * 100) 0 ++ "%" = "75%"
    ∧ system_report_line 16000000 4000000 20 false
        = "Memory         [###############     | 75%] 12000000/16000000" := by
  have hu : used_mem 16000000 4000000 = 12000000 := by decide
  have hp : usage_percent 16000000 4000000 = 3/4 := by
    unfold usage_percent used_mem
    norm_num
  have h15 : (3/4 : ℚ) * ((20 : ℤ) : ℚ) = ((15 : ℤ) : ℚ) := by norm_num
  have hbar : percent_to_graph (3/4) 20 = pyStrMul '#' 15 ++ pyStrMul ' ' (20 - 15) := by
    unfold percent_to_graph
    rw [pyRound_eval h15]
  have hfmt : formatFixed ((3/4 : ℚ) * 100) 0 = "75" := by
    rw [formatFixed_eval (n := 75) (by norm_num)]
    decide
  refine ⟨hu, hp, ?_, ?_, ?_⟩
  · rw [hp, percent_to_graph_count, pyRound_eval h15]
    decide
  · rw [hp, hfmt]
    decide
  · unfold system_report_line bar_segment
    rw [hp, hu, hbar, hfmt]
    decide

/-! ## Claim C7 -/

/-- C7: `bytes_to_human_r` divides by 1024 while the value is at least
1024 and a larger suffix remains, renders with two decimal places and a
space before the suffix: 0 KiB formats as `0.00 KiB`, 1,048,576 KiB as
`1.00 GiB`, 2,048 KiB as `2.00 MiB`, and 1024^5 KiB as `1024.00 PiB` —
the loop stops after `PiB` even though the remaining value 1024 is still
at least 1024. -/
theorem bytes_to_human_r_values :
    bytes_to_human_r 0 2 = "0.00 KiB"
    ∧ bytes_to_human_r 2048 2 = "2.00 MiB"
    ∧ bytes_to_human_r 1048576 2 = "1.00 GiB"
    ∧ bytes_to_human_r (1024 ^ 5) 2 = "1024.00 PiB" := by
  refine ⟨?_, ?_, ?_, ?_⟩
  · rw [b2h_no_scale (by norm_num) 2, formatFixed_eval (n := 0) (by norm_num)]
    decide
  · have s0 : scaleLoop 3 ((2 : ℚ)) = ((2 : ℚ), 0) := scaleLoop_done (by norm_num) 3
    have s1 : scaleLoop (suffixes.length - 1) (((2048 : ℤ) : ℚ)) = ((2 : ℚ), 1) := by
      show scaleLoop (3 + 1) (((2048 : ℤ) : ℚ)) = ((2 : ℚ), 1)
      rw [scaleLoop_step 3 (by norm_num) (show ((2048 : ℤ) : ℚ) / 1024 = 2 by norm_num), s0]
    simp only [bytes_to_human_r]
    rw [s1, formatFixed_eval (n := 200) (by norm_num)]
    decide
  · have s0 : scaleLoop 2 ((1 : ℚ)) = ((1 : ℚ), 0) := scaleLoop_done (by norm_num) 2
    have s1 : scaleLoop 3 ((1024 : ℚ)) = ((1 : ℚ), 1) := by
      show scaleLoop (2 + 1) ((1024 : ℚ)) = ((1 : ℚ), 1)
      rw [scaleLoop_step 2 (by norm_num) (show (1024 : ℚ) / 1024 = 1 by norm_num), s0]
    have s2 : scaleLoop (suffixes.length - 1) (((1048576 : ℤ) : ℚ)) = ((1 : ℚ), 2) := by
      show scaleLoop (3 + 1) (((1048576 : ℤ) : ℚ)) = ((1 : ℚ), 2)
      rw [scaleLoop_step 3 (by norm_num) (show ((1048576 : ℤ) : ℚ) / 1024 = 1024 by norm_num), s1]
    simp only [bytes_to_human_r]
    rw [s2, formatFixed_eval (n := 100) (by norm_num)]
    decide
  · have t0 : scaleLoop 0 ((1024 : ℚ)) = ((1024 : ℚ), 0) := rfl
    have t1 : scaleLoop 1 ((1024 ^ 2 : ℚ)) = ((1024 : ℚ), 1) := by
      show scaleLoop (0 + 1) ((1024 ^ 2 : ℚ)) = ((1024 : ℚ), 1)
      rw [scaleLoop_step 0 (by norm_num) (show (1024 ^ 2 : ℚ) / 1024 = 1024 by norm_num), t0]
    have t2 : scaleLoop 2 ((1024 ^ 3 : ℚ)) = ((1024 : ℚ), 2) := by
      show scaleLoop (1 + 1) ((1024 ^ 3 : ℚ)) = ((1024 : ℚ), 2)
      rw [scaleLoop_step 1 (by norm_num) (show (1024 ^ 3 : ℚ) / 1024 = 1024 ^ 2 by ring), t1]
    have t3 : scaleLoop 3 ((1024 ^ 4 : ℚ)) = ((1024 : ℚ), 3) := by
      show scaleLoop (2 + 1) ((1024 ^ 4 : ℚ)) = ((1024 : ℚ), 3)
      rw [scaleLoop_step 2 (by norm_num) (show (1024 ^ 4 : ℚ) / 1024 = 1024 ^ 3 by ring), t2]
    have t4 : scaleLoop (suffixes.length - 1) (((1024 ^ 5 : ℤ) : ℚ)) = ((1024 : ℚ), 4) := by
      show scaleLoop (3 + 1) (((1024 ^ 5 : ℤ) : ℚ)) = ((1024 : ℚ), 4)
      rw [scaleLoop_step 3 (by norm_num)
        (show ((1024 ^ 5 : ℤ) : ℚ) / 1024 = 1024 ^ 4 by push_cast; ring), t3]
    simp only [bytes_to_human_r]
    rw [t4, formatFixed_eval (n := 102400) (by norm_num)]
    decide

/-! ## Claim C3 -/

/-- C3: in per-program mode, when more than one pid is resolved the
report is the per-pid lines followed by exactly one aggregate line whose
fraction is the sum of the per-process resident memory values over the
same total (this is what `proc_line program (sum)` computes), and its
length is the pid count plus one; when exactly one pid is resolved the
report is just that pid's line, with no aggregate line. -/
theorem per_program_aggregate (program : String) (rss_of : String → ℤ)
    (total_mem bar_length : ℤ) (human : Bool) (pids : List String) :
    (1 < pids.length →
      per_program_report program rss_of total_mem bar_length human pids
        = pids.map (fun pid => proc_line pid (rss_of pid) total_mem bar_length human)
          ++ [proc_line program (pids.map rss_of).sum total_mem bar_length human]
      ∧ (per_program_report program rss_of total_mem bar_length human pids).length
          = pids.length + 1)
    ∧ (pids.length = 1 →
      per_program_report program rss_of total_mem bar_length human pids
        = pids.map (fun pid => proc_line pid (rss_of pid) total_mem bar_length human)
      ∧ (per_program_report program rss_of total_mem bar_length human pids).length
          = pids.length) := by
  constructor
  · intro h
    have he : per_program_report program rss_of total_mem bar_length human pids
        = pids.map (fun pid => proc_line pid (rss_of pid) total_mem bar_length human)
          ++ [proc_line program (pids.map rss_of).sum total_mem bar_length human] := by
      simp only [per_program_report, per_program_lines_spec]
      rw [if_pos h]
    refine ⟨he, ?_⟩
    rw [he]
    simp
  · intro h
    have hn : ¬ 1 < pids.length := by omega
    have he : per_program_report program rss_of total_mem bar_length human pids
        = pids.map (fun pid => proc_line pid (rss_of pid) total_mem bar_length human) := by
      simp only [per_program_report, per_program_lines_spec]
      rw [if_neg hn]
    refine ⟨he, ?_⟩
    rw [he]
    simp

/-- Witness for C3: two pids get the two per-pid lines plus one
aggregate line (three lines total); a single pid gets exactly one line
and no aggregate line. -/
theorem per_program_aggregate_w :
    (per_program_report "x" (fun p => (p.length : ℤ)) 100 10 false ["a", "bb"]
      = ["a", "bb"].map (fun pid => proc_line pid ((fun p => (p.length : ℤ)) pid) 100 10 false)
        ++ [proc_line "x" ((["a", "bb"].map (fun p => ((p.length : ℕ) : ℤ))).sum) 100 10 false]
     ∧ (per_program_report "x" (fun p => (p.length : ℤ)) 100 10 false ["a", "bb"]).length
        = ["a", "bb"].length + 1)
    ∧ (per_program_report "x" (fun p => (p.length : ℤ)) 100 10 false ["a"]
        = ["a"].map (fun pid => proc_line pid ((fun p => (p.length : ℤ)) pid) 100 10 false)
     ∧ (per_program_report "x" (fun p => (p.length : ℤ)) 100 10 false ["a"]).length
        = ["a"].length) :=
  ⟨(per_program_aggregate "x" (fun p => (p.length : ℤ)) 100 10 false ["a", "bb"]).1 (by decide),
   (per_program_aggregate "x" (fun p => (p.length : ℤ)) 100 10 false ["a"]).2 (by decide)⟩

/-! ## Claim C4 -/

/-- C4: when no line of the memory-info source starts with `MemTotal:`,
`get_sys_mem` returns Python `None` (the not-found condition, propagated
to the caller), never a default integer. -/
theorem get_sys_mem_no_total (meminfo : List String)
    (h : ∀ l ∈ meminfo, pyStartsWith l "MemTotal:" = false) :
    get_sys_mem meminfo = PyResult.ok none := by
  induction meminfo with
  | nil => rfl
  | cons line rest ih =>
    have hl := h line (List.mem_cons_self line rest)
    simp only [get_sys_mem, hl, Bool.false_eq_true, if_false]
    exact ih fun x hx => h x (List.mem_cons_of_mem line hx)

/-- Witness for C4 on a concrete meminfo without a `MemTotal:` line. -/
theorem get_sys_mem_no_total_w :
    get_sys_mem ["MemFree: 12 kB", "SwapTotal: 0 kB"] = PyResult.ok none :=
  get_sys_mem_no_total ["MemFree: 12 kB", "SwapTotal: 0 kB"] (by decide)

/-! ## Claim C8 -/

/-- C8: when no line of the memory-info source starts with
`MemAvailable:`, `get_avail_mem` returns the sentinel `-1` (a normal
return, not a failure); when such a line is present (first occurrence),
it returns that line's second whitespace-separated token parsed as an
integer. -/
theorem get_avail_mem_spec (meminfo : List String) :
    ((∀ l ∈ meminfo, pyStartsWith l "MemAvailable:" = false) →
      get_avail_mem meminfo = PyResult.ok (-1))
    ∧ (∀ (pre : List String) (line : String) (rest : List String) (tok : String) (v : ℤ),
        meminfo = pre ++ line :: rest →
        (∀ l ∈ pre, pyStartsWith l "MemAvailable:" = false) →
        pyStartsWith line "MemAvailable:" = true →
        (pySplit line).get? 1 = some tok →
        pyInt tok = some v →
        get_avail_mem meminfo = PyResult.ok v) := by
  constructor
  · intro h
    induction meminfo with
    | nil => rfl
    | cons line rest ih =>
      have hl := h line (List.mem_cons_self line rest)
      simp only [get_avail_mem, hl, Bool.false_eq_true, if_false]
      exact ih fun x hx => h x (List.mem_cons_of_mem line hx)
  · intro pre line rest tok v hm hpre hline htok hv
    subst hm
    induction pre with
    | nil =>
      simp only [List.nil_append, get_avail_mem, hline, if_true, htok, hv]
    | cons p ps ih =>
      have hp := hpre p (List.mem_cons_self p ps)
      simp only [List.cons_append, get_avail_mem, hp, Bool.false_eq_true, if_false]
      exact ih fun x hx => hpre x (List.mem_cons_of_mem p hx)

/-- Witness for C8: sentinel on a source without the field, and parsed
value on a source where the second line carries `MemAvailable: 42 kB`. -/
theorem get_avail_mem_spec_w :
    get_avail_mem ["MemTotal: 100 kB"] = PyResult.ok (-1)
    ∧ get_avail_mem ["MemTotal: 100 kB", "MemAvailable: 42 kB"] = PyResult.ok 42 :=
  ⟨(get_avail_mem_spec ["MemTotal: 100 kB"]).1 (by decide),
   (get_avail_mem_spec ["MemTotal: 100 kB", "MemAvailable: 42 kB"]).2
     ["MemTotal: 100 kB"] "MemAvailable: 42 kB" [] "42" 42 rfl (by decide) (by decide)
     (by decide) (by decide)⟩

/-! ## Claim C5 -/

/-- C5: when the resolver's underlying `pidof` output is blank (strips to
the empty string — the zero-process case), `pids_of_prog` returns the
empty list rather than failing, and the per-program branch prints
exactly `No processes found for <name>` and exits with status 1. -/
theorem no_processes_found (program pidof_output : String) (rss_of : String → ℤ)
    (total_mem bar_length : ℤ) (human : Bool)
    (h : pyStrip pidof_output = "") :
    pids_of_prog pidof_output = []
    ∧ per_program_main program pidof_output rss_of total_mem bar_length human
        = (["No processes found for " ++ program], 1) := by
  have h1 : pids_of_prog pidof_output = [] := by
    simp only [pids_of_prog, h, if_true]
  exact ⟨h1, by simp only [per_program_main, h1, List.isEmpty_nil, if_true]⟩

/-- Witness for C5 with an empty `pidof` output. -/
theorem no_processes_found_w :
    pids_of_prog "" = []
    ∧ per_program_main "firefox" "" (fun _ => 0) 100 20 false
        = (["No processes found for " ++ "firefox"], 1) :=
  no_processes_found "firefox" "" (fun _ => 0) 100 20 false (by decide)

/-! ## Claim C9 -/

/-- C9: when the available-memory sentinel `-1` flows into the
system-wide computation with a total `T > 0`, the unguarded
`used = total - available` yields `T + 1` (overshooting the total) and
the fraction `(T + 1) / T` is strictly greater than 1; no guard or
substitution intervenes (the report line is built directly from these
values, as `system_report_line` shows). -/
theorem sentinel_overshoot (T : ℤ) (hT : 0 < T) :
    used_mem T (-1) = T + 1
    ∧ usage_percent T (-1) = ((T : ℚ) + 1) / (T : ℚ)
    ∧ 1 < usage_percent T (-1) := by
  have hu : used_mem T (-1) = T + 1 := by
    unfold used_mem
    omega
  have hq : usage_percent T (-1) = ((T : ℚ) + 1) / (T : ℚ) := by
    unfold usage_percent
    rw [hu]
    push_cast
    ring_nf
  refine ⟨hu, hq, ?_⟩
  rw [hq]
  have hT0 : (0 : ℚ) < (T : ℚ) := by exact_mod_cast hT
  rw [lt_div_iff₀ hT0]
  linarith

/-- Witness for C9 at `T = 4`. -/
theorem sentinel_overshoot_w :
    used_mem 4 (-1) = 4 + 1
    ∧ usage_percent 4 (-1) = (((4 : ℤ) : ℚ) + 1) / ((4 : ℤ) : ℚ)
    ∧ 1 < usage_percent 4 (-1) :=
  sentinel_overshoot 4 (by decide)

/-! ## Claim C10 -/

/-- C10: `bytes_to_human_r` is total (it is a Lean function returning a
string for every integer input, negatives included), and for every
`kibibytes < 1024` — in particular every negative value — the scaling
loop never runs: the result is the unscaled value rendered by the
fixed-point formatter with `decimal_places` fraction digits, followed by
`" KiB"`. -/
theorem bytes_to_human_r_small (kibibytes : ℤ) (h : kibibytes < 1024) (decimal_places : ℕ) :
    bytes_to_human_r kibibytes decimal_places
      = formatFixed (kibibytes : ℚ) decimal_places ++ " KiB" :=
  b2h_no_scale (by exact_mod_cast h) decimal_places

/-- Witness for C10 at the negative input `-5`. -/
theorem bytes_to_human_r_small_w :
    bytes_to_human_r (-5) 2 = formatFixed ((-5 : ℤ) : ℚ) 2 ++ " KiB" :=
  bytes_to_human_r_small (-5) (by decide) 2
